import Mathlib

/-!
Verification of the binary/command resolution engine of the
`zed-mcp-server-github` extension (`src/mcp_server_github.rs`).

The Rust source is shallowly embedded: the filesystem, the release feed,
and the other host services (`zed_extension_api`, `std::fs`,
`std::env`, `std::process`) are modelled as explicit state and
environment records, and the two entry points
(`context_server_binary_path`, `context_server_command`) become pure
state-passing functions over them.  Paths are modelled as lists of
components (`"a/b"` is `["a", "b"]`); names produced by the source's
`format!` calls stay ordinary strings built with the same
concatenations as the source.
-/

namespace McpServerGithub

/-- Constant `REPO_NAME` from the source. -/
def REPO_NAME : String := "github/github-mcp-server"

/-- Constant `BINARY_NAME` from the source. -/
def BINARY_NAME : String := "github-mcp-server"

/-- Model of `zed::Os`. -/
inductive Os
  | mac
  | linux
  | windows
deriving DecidableEq, Repr

/-- Model of `zed::Architecture`. -/
inductive Architecture
  | aarch64
  | x86
  | x8664
deriving DecidableEq, Repr

/-- One release asset (`zed::GithubReleaseAsset`): a name and a download URL. -/
structure GithubReleaseAsset where
  name : String
  download_url : String
deriving DecidableEq, Repr

/-- A release (`zed::GithubRelease`): version string plus the asset list. -/
structure GithubRelease where
  version : String
  assets : List GithubReleaseAsset
deriving DecidableEq, Repr

/-- A filesystem path, as a list of components. -/
abbrev FsPath := List String

/-- An entry of the cache root (the working directory), as seen by
`fs::read_dir(".")`: its file name and whether it is a directory. -/
structure RootEntry where
  name : String
  isDir : Bool
deriving DecidableEq, Repr

/-- The on-disk state the source touches: the entries of the cache root,
the set of regular files (by path), and the set of executable files. -/
structure FS where
  rootEntries : List RootEntry
  files : List FsPath
  execs : List FsPath
deriving DecidableEq, Repr

/-- Check `fs::metadata(p).map_or(false, |stat| stat.is_file())`. -/
def FS.isFile (fs : FS) (p : FsPath) : Bool := fs.files.contains p

/-- Does some cache-root entry have this name? -/
def FS.hasEntryNamed (fs : FS) (n : String) : Bool :=
  fs.rootEntries.any (fun e => e.name == n)

/-- Does some cache-root entry with this name exist as a non-directory?
(`fs::create_dir_all` fails in that situation.) -/
def FS.hasFileEntryNamed (fs : FS) (n : String) : Bool :=
  fs.rootEntries.any (fun e => e.name == n && !e.isDir)

/-- Effect of a successful `fs::create_dir_all(n)` on the cache root:
idempotent, creates the directory entry when absent. -/
def FS.createDirAll (fs : FS) (n : String) : FS :=
  if fs.hasEntryNamed n then fs
  else { fs with rootEntries := fs.rootEntries ++ [⟨n, true⟩] }

/-- Effect of a successful `fs::remove_dir_all` on the cache-root entry
named `n`: the entry disappears and so does everything beneath it. -/
def FS.removeTree (fs : FS) (n : String) : FS :=
  { rootEntries := fs.rootEntries.filter (fun e => e.name != n),
    files := fs.files.filter (fun p => p.head? != some n),
    execs := fs.execs.filter (fun p => p.head? != some n) }

/-- External calls made during one resolution, in order.  `fetchRelease`
and `download` are the two network requests; `chmod` is the
`make_file_executable` call; `removeAttempt n` is a `remove_dir_all`
attempt on the cache-root entry named `n`. -/
inductive Event
  | fetchRelease
  | download
  | chmod
  | removeAttempt (name : String)
deriving DecidableEq, Repr

/-- Outcomes of the external services consumed by
`context_server_binary_path`: the release feed, and the success or
failure of each fallible host call. `downloadResult` carries, on
success, the paths extracted from the downloaded archive.
`entryLoadFails` lists cache-root entry names whose `DirEntry` fails to
load during `read_dir` iteration; `removeOk n` tells whether
`remove_dir_all` on the directory entry named `n` succeeds. -/
structure ResolveEnv where
  os : Os
  arch : Architecture
  release : Except String GithubRelease
  createDirOk : Bool
  downloadResult : Except String (List FsPath)
  chmodOk : Bool
  readDirOk : Bool
  entryLoadFails : List String
  removeOk : String → Bool

/-- The `match arch` arm in the `format!` call building the asset name. -/
def archToken : Architecture → String
  | .aarch64 => "arm64"
  | .x86 => "i386"
  | .x8664 => "x86_64"

/-- The `match platform` arm (the `os` component) in the same `format!` call. -/
def osToken : Os → String
  | .mac => "Darwin"
  | .linux => "Linux"
  | .windows => "Windows"

/-- The `match platform` arm (the `ext` component) in the same `format!` call. -/
def archiveExt : Os → String
  | .mac | .linux => "tar.gz"
  | .windows => "zip"

/-- The `asset_name` built at lines 42-58 of the source. -/
def assetNameFor (os : Os) (arch : Architecture) : String :=
  BINARY_NAME ++ "_" ++ osToken os ++ "_" ++ archToken arch ++ "." ++ archiveExt os

/-- The `release.assets.iter().find(|asset| asset.name == asset_name)` call. -/
def findAsset (release : GithubRelease) (asset_name : String) :
    Option GithubReleaseAsset :=
  release.assets.find? (fun asset => asset.name == asset_name)

/-- The name `format!("{BINARY_NAME}-{}", release.version)`. -/
def versionDir (release : GithubRelease) : String :=
  BINARY_NAME ++ "-" ++ release.version

/-- The path `format!("{version_dir}/{BINARY_NAME}")`, as a component path. -/
def binaryPathOf (release : GithubRelease) : FsPath :=
  [versionDir release, BINARY_NAME]

/-- Result of `context_server_binary_path`: the returned value, the
`cached_binary_path` field after the call, the filesystem after the
call, the trace of external calls, and the names passed to
`remove_dir_all` during pruning. -/
structure ResolveOutcome where
  result : Except String FsPath
  cached : Option FsPath
  fs : FS
  events : List Event
  deletionAttempts : List String
deriving Repr

/-- Result of one loop iteration block (lines 85-90): final filesystem,
names attempted, and whether every `DirEntry` loaded successfully. -/
structure PruneResult where
  fs : FS
  attempts : List String
  ok : Bool
deriving Repr

/-- `fs::remove_dir_all(entry.path()).ok()`: succeeds (and then removes
the tree) only when a directory entry with that name exists and the
environment lets the removal succeed; every failure is swallowed. -/
def pruneStep (removeOk : String → Bool) (fs : FS) (n : String) : FS :=
  if (fs.rootEntries.any (fun e => e.name == n && e.isDir)) && removeOk n then
    fs.removeTree n
  else fs

/-- The `for entry in entries` loop at lines 85-90, iterating over the
snapshot `entries` of the cache root: each entry must load (else the
whole call errors), and every entry whose name differs from
`version_dir` gets a best-effort `remove_dir_all`. -/
def pruneLoop (env : ResolveEnv) (version_dir : String) :
    List RootEntry → FS → PruneResult
  | [], fs => ⟨fs, [], true⟩
  | e :: rest, fs =>
    if env.entryLoadFails.contains e.name then ⟨fs, [], false⟩
    else if e.name = version_dir then pruneLoop env version_dir rest fs
    else
      let r := pruneLoop env version_dir rest (pruneStep env.removeOk fs e.name)
      ⟨r.fs, e.name :: r.attempts, r.ok⟩

/-- Lines 83-94 after a successful `read_dir`: run the pruning loop and
either finish successfully or fail on a `DirEntry` load error. -/
def pruneFinish (release : GithubRelease) (cached0 : Option FsPath)
    (r : PruneResult) : ResolveOutcome :=
  if r.ok then
    ⟨.ok (binaryPathOf release), some (binaryPathOf release), r.fs,
      [.fetchRelease, .download, .chmod] ++ r.attempts.map Event.removeAttempt,
      r.attempts⟩
  else
    ⟨.error "failed to load directory entry", cached0, r.fs,
      [.fetchRelease, .download, .chmod] ++ r.attempts.map Event.removeAttempt,
      r.attempts⟩

/-- Lines 82-94: `fs::read_dir(".")` (fatal on failure, via the `?`
operator) followed by the pruning loop, then memoize and return. -/
def pruneStage (env : ResolveEnv) (cached0 : Option FsPath)
    (release : GithubRelease) (fs3 : FS) : ResolveOutcome :=
  if env.readDirOk then
    pruneFinish release cached0 (pruneLoop env (versionDir release) fs3.rootEntries fs3)
  else
    ⟨.error "failed to list working directory", cached0, fs3,
      [.fetchRelease, .download, .chmod], []⟩

/-- Line 80: `zed::make_file_executable(&binary_path)?`.  The host call
makes the file at `binary_path` executable, so it succeeds only when
that file exists (and the environment reports no other failure). -/
def chmodStage (env : ResolveEnv) (cached0 : Option FsPath)
    (release : GithubRelease) (fs2 : FS) : ResolveOutcome :=
  if fs2.isFile (binaryPathOf release) && env.chmodOk then
    pruneStage env cached0 release
      { fs2 with execs := binaryPathOf release :: fs2.execs }
  else
    ⟨.error "failed to make file executable", cached0, fs2,
      [.fetchRelease, .download, .chmod], []⟩

/-- Lines 71-91: when the expected binary is not already a regular file,
download and decompress the asset into the version directory, make the
binary executable, and prune stale entries; otherwise skip all of it. -/
def downloadStage (env : ResolveEnv) (cached0 : Option FsPath)
    (release : GithubRelease) (fs1 : FS) : ResolveOutcome :=
  if fs1.isFile (binaryPathOf release) then
    ⟨.ok (binaryPathOf release), some (binaryPathOf release), fs1,
      [.fetchRelease], []⟩
  else
    match env.downloadResult with
    | .error e =>
      ⟨.error ("failed to download file: " ++ e), cached0, fs1,
        [.fetchRelease, .download], []⟩
    | .ok extracted =>
      chmodStage env cached0 release { fs1 with files := fs1.files ++ extracted }

/-- Lines 33-94 of `context_server_binary_path`: the full resolution
performed when the memoized fast path does not apply.  It queries the
release feed, selects the asset by exact name, creates the version
directory, and hands over to the download/chmod/prune stages. -/
def resolveFull (env : ResolveEnv) (cached0 : Option FsPath) (fs : FS) :
    ResolveOutcome :=
  match env.release with
  | .error e => ⟨.error e, cached0, fs, [.fetchRelease], []⟩
  | .ok release =>
    match findAsset release (assetNameFor env.os env.arch) with
    | none =>
      ⟨.error ("no asset found matching " ++ assetNameFor env.os env.arch),
        cached0, fs, [.fetchRelease], []⟩
    | some _asset =>
      if env.createDirOk && !fs.hasFileEntryNamed (versionDir release) then
        downloadStage env cached0 release (fs.createDirAll (versionDir release))
      else
        ⟨.error ("failed to create directory " ++ versionDir release),
          cached0, fs, [.fetchRelease], []⟩

/-- Function `context_server_binary_path` (lines 23-95): the memoized fast path,
then the full resolution. `cached0` is the `cached_binary_path` field on
entry. -/
def context_server_binary_path (env : ResolveEnv) (cached0 : Option FsPath)
    (fs : FS) : ResolveOutcome :=
  match cached0 with
  | some path =>
    if fs.isFile path then ⟨.ok path, some path, fs, [], []⟩
    else resolveFull env cached0 fs
  | none => resolveFull env cached0 fs

/-- The deserialized settings struct `GitHubContextServerSettings`. -/
structure GitHubContextServerSettings where
  github_personal_access_token : Option String
  use_wrapper_script : Option Bool
deriving DecidableEq, Repr

/-- Model of `zed::Command`: executable, arguments, environment variables. -/
structure Command where
  command : String
  args : List String
  env : List (String × String)
deriving DecidableEq, Repr

/-- The error message of lines 212-214 (token missing everywhere). -/
def missingTokenMsg : String :=
  "No GitHub token found. Please set github_personal_access_token in settings, set GITHUB_TOKEN/GITHUB_PERSONAL_ACCESS_TOKEN environment variable, or enable use_wrapper_script for automatic authentication. You can get a token with: gh auth token"

/-- Lines 206-215: the token comes from the explicit setting when it is
set, otherwise from `std::env::var("GITHUB_TOKEN")`, otherwise from
`std::env::var("GITHUB_PERSONAL_ACCESS_TOKEN")`, otherwise the call
fails. `envVar` models `std::env::var` (`none` = unset). -/
def resolveToken (settings : GitHubContextServerSettings)
    (envVar : String → Option String) : Except String String :=
  match settings.github_personal_access_token with
  | some token => .ok token
  | none =>
    match envVar "GITHUB_TOKEN" with
    | some v => .ok v
    | none =>
      match envVar "GITHUB_PERSONAL_ACCESS_TOKEN" with
      | some v => .ok v
      | none => .error missingTokenMsg

/-- What `get_wrapper_script_path` reads from the world: the current
working directory (`std::env::current_dir().ok()`), and which of the
three wrapper scripts exist on disk. -/
structure WrapperFS where
  cwd : Option String
  ps1Exists : Bool
  shExists : Bool
  jsExists : Bool

/-- Function `get_wrapper_script_path` (lines 99-136): Windows looks for the
PowerShell script, Mac/Linux for the shell script, and when the
platform-specific script is absent both fall back to the Node.js
script; nothing found yields `none`. -/
def get_wrapper_script_path (w : WrapperFS) (platform : Os) :
    Option (String × String) :=
  match w.cwd with
  | none => none
  | some dir =>
    match platform with
    | .windows =>
      if w.ps1Exists then
        some ("powershell", dir ++ "/wrappers/github-mcp-wrapper.ps1")
      else if w.jsExists then
        some ("node", dir ++ "/wrappers/github-mcp-wrapper.js")
      else none
    | .mac | .linux =>
      if w.shExists then
        some ("bash", dir ++ "/wrappers/github-mcp-wrapper.sh")
      else if w.jsExists then
        some ("node", dir ++ "/wrappers/github-mcp-wrapper.js")
      else none

/-- The `match command.as_str()` of lines 174-184 building the wrapper
arguments: PowerShell gets the execution-policy flags, every other
interpreter (bash, node, and the default arm alike) gets just the
script path. -/
def wrapperArgs (command wrapper_path : String) : List String :=
  if command = "powershell" then
    ["-ExecutionPolicy", "Bypass", "-File", wrapper_path]
  else [wrapper_path]

/-- The `match command.as_str()` of lines 192-197 naming the missing
dependency. -/
def dependencyName (command : String) : String :=
  if command = "powershell" then "PowerShell"
  else if command = "bash" then "Bash shell"
  else if command = "node" then "Node.js"
  else command

/-- The error message of line 198. -/
def wrapperPrereqMissingMsg (dep : String) : String :=
  "Wrapper script found but " ++ dep ++ " not available. Please install " ++
    dep ++ " or disable wrapper mode."

/-- The error message of line 201. -/
def wrapperNotFoundMsg : String :=
  "Wrapper mode enabled but no wrapper script found in wrappers/ directory. Please disable wrapper mode or use traditional token configuration."

/-- Result of `context_server_command`: the command or error, plus the
resolver state after the call (memoized path, filesystem, events). -/
structure CommandOutcome where
  result : Except String Command
  cached : Option FsPath
  fs : FS
  events : List Event

/-- Joins a component path back into the string the Rust code carries. -/
def pathStr (p : FsPath) : String := String.intercalate "/" p

/-- Function `context_server_command` (lines 154-222), after settings
deserialization: wrapper mode when `use_wrapper_script` is true
(locate script, check prerequisites via `prereqOk`, build
interpreter-specific arguments); otherwise traditional mode (resolve
the token, then the binary path, and emit the `stdio` command with the
token exported as `GITHUB_PERSONAL_ACCESS_TOKEN`). -/
def context_server_command (settings : GitHubContextServerSettings)
    (w : WrapperFS) (prereqOk : String → Bool)
    (envVar : String → Option String) (renv : ResolveEnv)
    (cached0 : Option FsPath) (fs : FS) : CommandOutcome :=
  if settings.use_wrapper_script.getD false then
    match get_wrapper_script_path w renv.os with
    | some (command, wrapper_path) =>
      if prereqOk command then
        ⟨.ok ⟨command, wrapperArgs command wrapper_path, []⟩, cached0, fs, []⟩
      else
        ⟨.error (wrapperPrereqMissingMsg (dependencyName command)),
          cached0, fs, []⟩
    | none => ⟨.error wrapperNotFoundMsg, cached0, fs, []⟩
  else
    match resolveToken settings envVar with
    | .error e => ⟨.error e, cached0, fs, []⟩
    | .ok token =>
      let r := context_server_binary_path renv cached0 fs
      match r.result with
      | .error e => ⟨.error e, r.cached, r.fs, r.events⟩
      | .ok p =>
        ⟨.ok ⟨pathStr p, ["stdio"], [("GITHUB_PERSONAL_ACCESS_TOKEN", token)]⟩,
          r.cached, r.fs, r.events⟩

/-! ## Basic lemmas about the filesystem model -/

theorem FS.isFile_iff (fs : FS) (p : FsPath) : fs.isFile p = true ↔ p ∈ fs.files := by
  simp [FS.isFile, List.contains, List.elem_iff]

theorem FS.createDirAll_files (fs : FS) (n : String) :
    (fs.createDirAll n).files = fs.files := by
  unfold FS.createDirAll; split <;> rfl

theorem FS.createDirAll_execs (fs : FS) (n : String) :
    (fs.createDirAll n).execs = fs.execs := by
  unfold FS.createDirAll; split <;> rfl

/-! ## C4: credential precedence -/

/-- An environment holding both credential variables, used to separate
the two environment-variable sources. -/
def envVarsBoth : String → Option String := fun n =>
  if n = "GITHUB_TOKEN" then some "generic-token"
  else if n = "GITHUB_PERSONAL_ACCESS_TOKEN" then some "specific-token"
  else none

/-- Claim C4, counterexample: The claim says the more specific variable
`GITHUB_PERSONAL_ACCESS_TOKEN` takes precedence over the generic
`GITHUB_TOKEN`.  With no explicit setting and both variables set, the
code returns the value of `GITHUB_TOKEN`, not the value of
`GITHUB_PERSONAL_ACCESS_TOKEN`: the code checks the generic name first. -/
theorem c4_counterexample :
    resolveToken ⟨none, none⟩ envVarsBoth = .ok "generic-token" ∧
    envVarsBoth "GITHUB_PERSONAL_ACCESS_TOKEN" = some "specific-token" ∧
    ("generic-token" : String) ≠ "specific-token" :=
  ⟨rfl, rfl, by decide⟩

/-- Claim C4, amended: Token resolution follows fixed precedence, first
present source wins: the explicit `github_personal_access_token`
setting overrides both environment variables, and of the two
environment variables the generic `GITHUB_TOKEN` takes precedence over
the more specific `GITHUB_PERSONAL_ACCESS_TOKEN`; when all three
sources are absent, resolution fails with the missing-credential
error. -/
theorem c4_amended_precedence (settings : GitHubContextServerSettings)
    (envVar : String → Option String) :
    (∀ t, settings.github_personal_access_token = some t →
      resolveToken settings envVar = .ok t) ∧
    (settings.github_personal_access_token = none →
      ∀ v, envVar "GITHUB_TOKEN" = some v →
        resolveToken settings envVar = .ok v) ∧
    (settings.github_personal_access_token = none →
      envVar "GITHUB_TOKEN" = none →
      ∀ v, envVar "GITHUB_PERSONAL_ACCESS_TOKEN" = some v →
        resolveToken settings envVar = .ok v) ∧
    (settings.github_personal_access_token = none →
      envVar "GITHUB_TOKEN" = none →
      envVar "GITHUB_PERSONAL_ACCESS_TOKEN" = none →
      resolveToken settings envVar = .error missingTokenMsg) := by
  refine ⟨?_, ?_, ?_, ?_⟩ <;> intros <;> simp_all [resolveToken]

/-- Witness for `c4_amended_precedence` at concrete inputs: an explicit
setting wins over both variables, and with every source absent the
error is produced. -/
theorem c4_amended_precedence_witness :
    resolveToken ⟨some "setting-token", some false⟩ envVarsBoth =
      .ok "setting-token" ∧
    resolveToken ⟨none, none⟩ (fun _ => none) = .error missingTokenMsg :=
  ⟨(c4_amended_precedence ⟨some "setting-token", some false⟩ envVarsBoth).1
      "setting-token" rfl,
   (c4_amended_precedence ⟨none, none⟩ (fun _ => none)).2.2.2 rfl rfl rfl⟩

/-! ## C5: exact asset selection -/

/-- Claim C5: Asset selection succeeds only when some asset name is
exactly the platform-derived string: a selected asset is a member of
the release with exactly the expected name; when no asset name equals
that string the selector returns nothing and the binary resolution
fails with the no-asset-found error; and the expected string is always
one of the nine `{binary_name}_{Darwin|Linux|Windows}_{arm64|i386|x86_64}.{tar.gz|zip}`
combinations. -/
theorem c5_exact_asset_selection (release : GithubRelease) (os : Os)
    (arch : Architecture) :
    (∀ a, findAsset release (assetNameFor os arch) = some a →
      a ∈ release.assets ∧ a.name = assetNameFor os arch) ∧
    ((∀ a ∈ release.assets, a.name ≠ assetNameFor os arch) →
      findAsset release (assetNameFor os arch) = none ∧
      ∀ env : ResolveEnv, env.os = os → env.arch = arch →
        env.release = .ok release → ∀ fs : FS,
          (context_server_binary_path env none fs).result =
            .error ("no asset found matching " ++ assetNameFor os arch)) ∧
    assetNameFor os arch ∈ [
      "github-mcp-server_Darwin_arm64.tar.gz",
      "github-mcp-server_Darwin_i386.tar.gz",
      "github-mcp-server_Darwin_x86_64.tar.gz",
      "github-mcp-server_Linux_arm64.tar.gz",
      "github-mcp-server_Linux_i386.tar.gz",
      "github-mcp-server_Linux_x86_64.tar.gz",
      "github-mcp-server_Windows_arm64.zip",
      "github-mcp-server_Windows_i386.zip",
      "github-mcp-server_Windows_x86_64.zip"] := by
  refine ⟨?_, ?_, ?_⟩
  · intro a h
    refine ⟨List.mem_of_find?_eq_some h, ?_⟩
    have := List.find?_some h
    simpa using this
  · intro hnone
    have hfind : findAsset release (assetNameFor os arch) = none := by
      unfold findAsset
      rw [List.find?_eq_none]
      intro a ha
      simpa using hnone a ha
    refine ⟨hfind, ?_⟩
    intro env hos harch hrel fs
    simp [context_server_binary_path, resolveFull, hrel, hos, harch, hfind]
  · cases os <;> cases arch <;> decide

/-- A release whose assets include a superset and a prefix of the
expected Linux/x86_64 name, but never the exact name. -/
def releaseNoExact : GithubRelease :=
  ⟨"9.9.9",
    [⟨"github-mcp-server_Linux_x86_64.tar.gz.sha256", "u1"⟩,
     ⟨"github-mcp-server_Linux_x86_64", "u2"⟩]⟩

/-- Resolution environment whose feed serves `releaseNoExact`. -/
def envNoExact : ResolveEnv :=
  { os := .linux, arch := .x8664, release := .ok releaseNoExact,
    createDirOk := true, downloadResult := .ok [], chmodOk := true,
    readDirOk := true, entryLoadFails := [], removeOk := fun _ => true }

/-- The empty cache root. -/
def fsEmpty : FS := ⟨[], [], []⟩

/-- Witness for `c5_exact_asset_selection`: with only a superset and a
prefix of the expected name present, selection fails and the resolution
errors. -/
theorem c5_exact_asset_selection_witness :
    findAsset releaseNoExact (assetNameFor .linux .x8664) = none ∧
    (context_server_binary_path envNoExact none fsEmpty).result =
      .error ("no asset found matching " ++ assetNameFor .linux .x8664) := by
  have h := (c5_exact_asset_selection releaseNoExact .linux .x8664).2.1
    (by decide)
  exact ⟨h.1, h.2 envNoExact rfl rfl rfl fsEmpty⟩

/-! ## C6: wrapper-mode failures -/

/-- Claim C6: When settings request wrapper mode: if no wrapper script is
found the call fails with the wrapper-not-found error, and if a script
is found but its interpreter's prerequisite check fails the call fails
with the message naming the missing dependency; in both cases the
outcome is an error, so no command (not even a partial one) is
returned, and the resolver state is untouched. -/
theorem c6_wrapper_failures (settings : GitHubContextServerSettings)
    (w : WrapperFS) (prereqOk : String → Bool)
    (envVar : String → Option String) (renv : ResolveEnv)
    (cached0 : Option FsPath) (fs : FS)
    (hw : settings.use_wrapper_script = some true) :
    (get_wrapper_script_path w renv.os = none →
      context_server_command settings w prereqOk envVar renv cached0 fs =
        ⟨.error wrapperNotFoundMsg, cached0, fs, []⟩) ∧
    (∀ cmd path, get_wrapper_script_path w renv.os = some (cmd, path) →
      prereqOk cmd = false →
      context_server_command settings w prereqOk envVar renv cached0 fs =
        ⟨.error (wrapperPrereqMissingMsg (dependencyName cmd)),
          cached0, fs, []⟩) := by
  constructor
  · intro h
    simp [context_server_command, hw, h]
  · intro cmd path h hp
    simp [context_server_command, hw, h, hp]

/-- A dummy resolution environment (never consulted on wrapper paths
other than for the platform). -/
def envLinuxDummy : ResolveEnv :=
  { os := .linux, arch := .x8664, release := .error "unused",
    createDirOk := true, downloadResult := .error "unused", chmodOk := true,
    readDirOk := true, entryLoadFails := [], removeOk := fun _ => true }

/-- Witness for `c6_wrapper_failures`: no script anywhere gives the
not-found error; a shell script with bash unavailable gives the
prerequisite error naming "Bash shell". -/
theorem c6_wrapper_failures_witness :
    context_server_command ⟨none, some true⟩ ⟨some "/ext", false, false, false⟩
        (fun _ => true) (fun _ => none) envLinuxDummy none fsEmpty =
      ⟨.error wrapperNotFoundMsg, none, fsEmpty, []⟩ ∧
    context_server_command ⟨none, some true⟩ ⟨some "/ext", false, true, false⟩
        (fun _ => false) (fun _ => none) envLinuxDummy none fsEmpty =
      ⟨.error (wrapperPrereqMissingMsg "Bash shell"), none, fsEmpty, []⟩ := by
  constructor
  · exact (c6_wrapper_failures ⟨none, some true⟩ ⟨some "/ext", false, false, false⟩
      (fun _ => true) (fun _ => none) envLinuxDummy none fsEmpty rfl).1 rfl
  · have := (c6_wrapper_failures ⟨none, some true⟩ ⟨some "/ext", false, true, false⟩
      (fun _ => false) (fun _ => none) envLinuxDummy none fsEmpty rfl).2
      "bash" "/ext/wrappers/github-mcp-wrapper.sh" rfl rfl
    simpa [dependencyName] using this

/-! ## C7: wrapper locator order -/

/-- Claim C7: Wrapper location is first-match-wins: Windows prefers the
PowerShell script (interpreter `powershell`), Mac/Linux the shell
script (interpreter `bash`); when the platform-specific script is
absent both fall back to the Node.js script (interpreter `node`); and
when none exists the locator returns `none`, which is mere absence, not
an error. -/
theorem c7_wrapper_locator (w : WrapperFS) (os : Os) (dir : String)
    (hcwd : w.cwd = some dir) :
    (os = .windows → w.ps1Exists = true →
      get_wrapper_script_path w os =
        some ("powershell", dir ++ "/wrappers/github-mcp-wrapper.ps1")) ∧
    ((os = .mac ∨ os = .linux) → w.shExists = true →
      get_wrapper_script_path w os =
        some ("bash", dir ++ "/wrappers/github-mcp-wrapper.sh")) ∧
    (os = .windows → w.ps1Exists = false → w.jsExists = true →
      get_wrapper_script_path w os =
        some ("node", dir ++ "/wrappers/github-mcp-wrapper.js")) ∧
    ((os = .mac ∨ os = .linux) → w.shExists = false → w.jsExists = true →
      get_wrapper_script_path w os =
        some ("node", dir ++ "/wrappers/github-mcp-wrapper.js")) ∧
    (os = .windows → w.ps1Exists = false → w.jsExists = false →
      get_wrapper_script_path w os = none) ∧
    ((os = .mac ∨ os = .linux) → w.shExists = false → w.jsExists = false →
      get_wrapper_script_path w os = none) := by
  refine ⟨?_, ?_, ?_, ?_, ?_, ?_⟩ <;>
    rintro (rfl | rfl | rfl) <;> intros <;>
      simp_all [get_wrapper_script_path]

/-- Witness for `c7_wrapper_locator`: on Linux with only the shell
script present the locator picks bash, and on Windows with only the
Node.js script present it falls back to node. -/
theorem c7_wrapper_locator_witness :
    get_wrapper_script_path ⟨some "/ext", false, true, true⟩ .linux =
      some ("bash", "/ext/wrappers/github-mcp-wrapper.sh") ∧
    get_wrapper_script_path ⟨some "/ext", false, false, true⟩ .windows =
      some ("node", "/ext/wrappers/github-mcp-wrapper.js") := by
  constructor
  · exact (c7_wrapper_locator ⟨some "/ext", false, true, true⟩ .linux "/ext"
      rfl).2.1 (Or.inr rfl) rfl
  · exact (c7_wrapper_locator ⟨some "/ext", false, false, true⟩ .windows "/ext"
      rfl).2.2.1 rfl rfl rfl

/-! ## C8: traditional-mode command shape -/

/-- Claim C8: On every successful traditional-mode invocation the emitted
command is the resolved cached binary path, the single argument
`stdio`, and an environment holding exactly the resolved token under
`GITHUB_PERSONAL_ACCESS_TOKEN`. -/
theorem c8_traditional_command (settings : GitHubContextServerSettings)
    (w : WrapperFS) (prereqOk : String → Bool)
    (envVar : String → Option String) (renv : ResolveEnv)
    (cached0 : Option FsPath) (fs : FS) (token : String) (p : FsPath)
    (hw : settings.use_wrapper_script.getD false = false)
    (htok : resolveToken settings envVar = .ok token)
    (hbin : (context_server_binary_path renv cached0 fs).result = .ok p) :
    (context_server_command settings w prereqOk envVar renv cached0 fs).result =
      .ok ⟨pathStr p, ["stdio"], [("GITHUB_PERSONAL_ACCESS_TOKEN", token)]⟩ := by
  simp [context_server_command, hw, htok, hbin]

/-- Witness for `c8_traditional_command`: memoized path already valid,
token from settings. -/
theorem c8_traditional_command_witness :
    (context_server_command ⟨some "tok", some false⟩
        ⟨some "/ext", false, false, false⟩ (fun _ => true) (fun _ => none)
        envLinuxDummy (some ["github-mcp-server-1.0.0", "github-mcp-server"])
        ⟨[⟨"github-mcp-server-1.0.0", true⟩],
          [["github-mcp-server-1.0.0", "github-mcp-server"]], []⟩).result =
      .ok ⟨"github-mcp-server-1.0.0/github-mcp-server", ["stdio"],
        [("GITHUB_PERSONAL_ACCESS_TOKEN", "tok")]⟩ :=
  c8_traditional_command ⟨some "tok", some false⟩
    ⟨some "/ext", false, false, false⟩ (fun _ => true) (fun _ => none)
    envLinuxDummy (some ["github-mcp-server-1.0.0", "github-mcp-server"])
    ⟨[⟨"github-mcp-server-1.0.0", true⟩],
      [["github-mcp-server-1.0.0", "github-mcp-server"]], []⟩
    "tok" ["github-mcp-server-1.0.0", "github-mcp-server"] rfl rfl rfl

/-! ## Case analysis of the resolution outcome -/

theorem resolveFull_cases (env : ResolveEnv) (cached0 : Option FsPath) (fs : FS) :
    (∃ e, (resolveFull env cached0 fs).result = .error e ∧
      (resolveFull env cached0 fs).cached = cached0) ∨
    (∃ p, (resolveFull env cached0 fs).result = .ok p ∧
      (resolveFull env cached0 fs).cached = some p) := by
  unfold resolveFull downloadStage chmodStage pruneStage pruneFinish
  repeat' split
  all_goals first
    | exact .inl ⟨_, rfl, rfl⟩
    | exact .inr ⟨_, rfl, rfl⟩

theorem csbp_cases (env : ResolveEnv) (cached0 : Option FsPath) (fs : FS) :
    (∃ e, (context_server_binary_path env cached0 fs).result = .error e ∧
      (context_server_binary_path env cached0 fs).cached = cached0) ∨
    (∃ p, (context_server_binary_path env cached0 fs).result = .ok p ∧
      (context_server_binary_path env cached0 fs).cached = some p) := by
  unfold context_server_binary_path
  cases cached0 with
  | none => exact resolveFull_cases env none fs
  | some path =>
    by_cases hf : FS.isFile fs path = true
    · simp only [hf, if_true]
      exact .inr ⟨path, rfl, rfl⟩
    · simp only [hf, if_false]
      exact resolveFull_cases env (some path) fs

/-- Claim C9: The memoized `cached_binary_path` is left unchanged by every
call that returns an error, and is assigned to the returned path on
every successful call. -/
theorem c9_memo_assigned_only_on_success (env : ResolveEnv)
    (cached0 : Option FsPath) (fs : FS) :
    (∀ e, (context_server_binary_path env cached0 fs).result = .error e →
      (context_server_binary_path env cached0 fs).cached = cached0) ∧
    (∀ p, (context_server_binary_path env cached0 fs).result = .ok p →
      (context_server_binary_path env cached0 fs).cached = some p) := by
  rcases csbp_cases env cached0 fs with ⟨e, he, hca⟩ | ⟨p, hp, hca⟩
  · refine ⟨fun _ _ => hca, fun p hp => ?_⟩
    rw [he] at hp
    cases hp
  · refine ⟨fun e he => ?_, fun p' hp' => ?_⟩
    · rw [hp] at he
      cases he
    · rw [hp] at hp'
      obtain rfl := Except.ok.inj hp'
      exact hca

/-- A resolution environment whose release feed is down. -/
def envFeedDown : ResolveEnv :=
  { os := .linux, arch := .x8664, release := .error "feed unavailable",
    createDirOk := true, downloadResult := .error "unused", chmodOk := true,
    readDirOk := true, entryLoadFails := [], removeOk := fun _ => true }

/-- Witness for `c9_memo_assigned_only_on_success`: with a stale
memoized path and the feed down, the call errors and the memoized path
keeps its old value. -/
theorem c9_memo_assigned_only_on_success_witness :
    (context_server_binary_path envFeedDown (some ["stale"]) fsEmpty).result =
      .error "feed unavailable" ∧
    (context_server_binary_path envFeedDown (some ["stale"]) fsEmpty).cached =
      some ["stale"] :=
  ⟨rfl, (c9_memo_assigned_only_on_success envFeedDown (some ["stale"])
    fsEmpty).1 "feed unavailable" rfl⟩

/-! ## Preservation lemmas for the pruning loop -/

theorem pruneStep_files_mem (removeOk : String → Bool) (fs : FS) (n : String)
    (p : FsPath) (hp : p.head? ≠ some n) (h : p ∈ fs.files) :
    p ∈ (pruneStep removeOk fs n).files := by
  unfold pruneStep FS.removeTree
  split
  · simp only [List.mem_filter]
    exact ⟨h, by simpa using hp⟩
  · exact h

theorem pruneLoop_files_mem (env : ResolveEnv) (vd : String)
    (entries : List RootEntry) (fs : FS) (p : FsPath)
    (hhead : p.head? = some vd) (h : p ∈ fs.files) :
    p ∈ (pruneLoop env vd entries fs).fs.files := by
  induction entries generalizing fs with
  | nil => exact h
  | cons e rest ih =>
    unfold pruneLoop
    split
    · exact h
    · split
      · exact ih fs h
      next hne =>
        exact ih _ (pruneStep_files_mem env.removeOk fs e.name p
          (by rw [hhead]; exact fun hc => hne (Option.some.inj hc).symm) h)

theorem pruneStep_execs_mem (removeOk : String → Bool) (fs : FS) (n : String)
    (p : FsPath) (hp : p.head? ≠ some n) (h : p ∈ fs.execs) :
    p ∈ (pruneStep removeOk fs n).execs := by
  unfold pruneStep FS.removeTree
  split
  · simp only [List.mem_filter]
    exact ⟨h, by simpa using hp⟩
  · exact h

theorem pruneLoop_execs_mem (env : ResolveEnv) (vd : String)
    (entries : List RootEntry) (fs : FS) (p : FsPath)
    (hhead : p.head? = some vd) (h : p ∈ fs.execs) :
    p ∈ (pruneLoop env vd entries fs).fs.execs := by
  induction entries generalizing fs with
  | nil => exact h
  | cons e rest ih =>
    unfold pruneLoop
    split
    · exact h
    · split
      · exact ih fs h
      next hne =>
        exact ih _ (pruneStep_execs_mem env.removeOk fs e.name p
          (by rw [hhead]; exact fun hc => hne (Option.some.inj hc).symm) h)

theorem resolveFull_fetch_mem (env : ResolveEnv) (cached0 : Option FsPath)
    (fs : FS) : Event.fetchRelease ∈ (resolveFull env cached0 fs).events := by
  unfold resolveFull downloadStage chmodStage pruneStage pruneFinish
  repeat' split
  all_goals simp

theorem resolveFull_ok_state (env : ResolveEnv) (cached0 : Option FsPath)
    (fs : FS) (p : FsPath) :
    (resolveFull env cached0 fs).result = .ok p →
    (resolveFull env cached0 fs).cached = some p ∧
    (resolveFull env cached0 fs).fs.isFile p = true := by
  unfold resolveFull
  split
  · intro h; simp at h
  · rename_i release hrel
    split
    · intro h; simp at h
    · rename_i asset hasset
      split
      · unfold downloadStage
        split
        · rename_i hwarm
          intro h
          simp only [Except.ok.injEq] at h
          subst h
          exact ⟨rfl, hwarm⟩
        · rename_i hwarm
          split
          · intro h; simp at h
          · rename_i extracted hdl
            unfold chmodStage
            split
            · rename_i hchmod
              rw [Bool.and_eq_true] at hchmod
              unfold pruneStage
              split
              · rename_i hrd
                unfold pruneFinish
                split
                · rename_i hploop
                  intro h
                  simp only [Except.ok.injEq] at h
                  subst h
                  refine ⟨rfl, ?_⟩
                  rw [FS.isFile_iff]
                  exact pruneLoop_files_mem env (versionDir release) _ _ _ rfl
                    ((FS.isFile_iff _ _).mp hchmod.1)
                · intro h; simp at h
              · intro h; simp at h
            · intro h; simp at h
      · intro h; simp at h

/-- The memoized fast path: a set memoized path pointing at an existing
regular file is returned as-is, with no external calls and no state
change. -/
theorem csbp_fast (env : ResolveEnv) (p : FsPath) (fs : FS)
    (h : fs.isFile p = true) :
    context_server_binary_path env (some p) fs = ⟨.ok p, some p, fs, [], []⟩ := by
  simp [context_server_binary_path, h]

/-- After any successful call, the memoized path is the returned path
and that path is a regular file in the final filesystem. -/
theorem csbp_ok_state (env : ResolveEnv) (cached0 : Option FsPath) (fs : FS)
    (p : FsPath) :
    (context_server_binary_path env cached0 fs).result = .ok p →
    (context_server_binary_path env cached0 fs).cached = some p ∧
    (context_server_binary_path env cached0 fs).fs.isFile p = true := by
  unfold context_server_binary_path
  cases cached0 with
  | none => exact resolveFull_ok_state env none fs p
  | some path =>
    by_cases hf : FS.isFile fs path = true
    · simp only [hf, if_true]
      intro h
      simp only [Except.ok.injEq] at h
      subst h
      exact ⟨rfl, hf⟩
    · simp only [hf, if_false]
      exact resolveFull_ok_state env (some path) fs p

/-! ## C2: memoization -/

/-- Claim C2: When the memoized path points at an existing regular file
the call returns it with no external calls at all and no state change;
when the file is gone the call instead performs the full resolution,
including the release-feed query; and after any successful call a
second call with unchanged filesystem is a pure memoized hit: no
events, same path. -/
theorem c2_memoized_fast_path :
    (∀ (env : ResolveEnv) (p : FsPath) (fs : FS), fs.isFile p = true →
      context_server_binary_path env (some p) fs = ⟨.ok p, some p, fs, [], []⟩) ∧
    (∀ (env : ResolveEnv) (p : FsPath) (fs : FS), fs.isFile p = false →
      context_server_binary_path env (some p) fs = resolveFull env (some p) fs ∧
      Event.fetchRelease ∈ (context_server_binary_path env (some p) fs).events) ∧
    (∀ (env env2 : ResolveEnv) (cached0 : Option FsPath) (fs : FS) (p : FsPath),
      (context_server_binary_path env cached0 fs).result = .ok p →
      context_server_binary_path env2
          (context_server_binary_path env cached0 fs).cached
          (context_server_binary_path env cached0 fs).fs =
        ⟨.ok p, some p, (context_server_binary_path env cached0 fs).fs,
          [], []⟩) := by
  refine ⟨?_, ?_, ?_⟩
  · intro env p fs h
    exact csbp_fast env p fs h
  · intro env p fs h
    have heq : context_server_binary_path env (some p) fs =
        resolveFull env (some p) fs := by
      simp [context_server_binary_path, h]
    refine ⟨heq, ?_⟩
    rw [heq]
    exact resolveFull_fetch_mem env (some p) fs
  · intro env env2 cached0 fs p h
    obtain ⟨hc, hf⟩ := csbp_ok_state env cached0 fs p h
    rw [hc]
    exact csbp_fast env2 p _ hf

/-- Witness for `c2_memoized_fast_path`: a concrete warm cache hit
returns immediately with no events, and chaining a successful call into
a second call with a different (even failing) environment still hits
the memo with zero events. -/
theorem c2_memoized_fast_path_witness :
    context_server_binary_path envFeedDown
        (some ["github-mcp-server-1.0.0", "github-mcp-server"])
        ⟨[⟨"github-mcp-server-1.0.0", true⟩],
          [["github-mcp-server-1.0.0", "github-mcp-server"]], []⟩ =
      ⟨.ok ["github-mcp-server-1.0.0", "github-mcp-server"],
        some ["github-mcp-server-1.0.0", "github-mcp-server"],
        ⟨[⟨"github-mcp-server-1.0.0", true⟩],
          [["github-mcp-server-1.0.0", "github-mcp-server"]], []⟩, [], []⟩ ∧
    context_server_binary_path envFeedDown
        (context_server_binary_path envLinuxDummy
          (some ["github-mcp-server-1.0.0", "github-mcp-server"])
          ⟨[⟨"github-mcp-server-1.0.0", true⟩],
            [["github-mcp-server-1.0.0", "github-mcp-server"]], []⟩).cached
        (context_server_binary_path envLinuxDummy
          (some ["github-mcp-server-1.0.0", "github-mcp-server"])
          ⟨[⟨"github-mcp-server-1.0.0", true⟩],
            [["github-mcp-server-1.0.0", "github-mcp-server"]], []⟩).fs =
      ⟨.ok ["github-mcp-server-1.0.0", "github-mcp-server"],
        some ["github-mcp-server-1.0.0", "github-mcp-server"],
        (context_server_binary_path envLinuxDummy
          (some ["github-mcp-server-1.0.0", "github-mcp-server"])
          ⟨[⟨"github-mcp-server-1.0.0", true⟩],
            [["github-mcp-server-1.0.0", "github-mcp-server"]], []⟩).fs,
        [], []⟩ :=
  ⟨c2_memoized_fast_path.1 envFeedDown
      ["github-mcp-server-1.0.0", "github-mcp-server"]
      ⟨[⟨"github-mcp-server-1.0.0", true⟩],
        [["github-mcp-server-1.0.0", "github-mcp-server"]], []⟩ rfl,
   c2_memoized_fast_path.2.2 envLinuxDummy envFeedDown
      (some ["github-mcp-server-1.0.0", "github-mcp-server"])
      ⟨[⟨"github-mcp-server-1.0.0", true⟩],
        [["github-mcp-server-1.0.0", "github-mcp-server"]], []⟩
      ["github-mcp-server-1.0.0", "github-mcp-server"] rfl⟩

/-! ## Characterizing the pruning loop -/

theorem rootEntry_eq_of_name_eq {l : List RootEntry}
    (hnd : (l.map RootEntry.name).Nodup) {x y : RootEntry}
    (hx : x ∈ l) (hy : y ∈ l) (h : x.name = y.name) : x = y :=
  List.inj_on_of_nodup_map hnd hx hy h

theorem pruneStep_mem_preserved (removeOk : String → Bool) (fs : FS)
    (n : String) (x : RootEntry) (hx : x ∈ fs.rootEntries)
    (hxn : x.name ≠ n) : x ∈ (pruneStep removeOk fs n).rootEntries := by
  unfold pruneStep FS.removeTree
  split
  · simp only [List.mem_filter]
    exact ⟨hx, by simpa using hxn⟩
  · exact hx

theorem pruneStep_sublist (removeOk : String → Bool) (fs : FS) (n : String) :
    List.Sublist (pruneStep removeOk fs n).rootEntries fs.rootEntries := by
  unfold pruneStep FS.removeTree
  split
  · exact List.filter_sublist _
  · exact List.Sublist.refl _

theorem pruneLoop_sublist (env : ResolveEnv) (vd : String)
    (entries : List RootEntry) (fs : FS) :
    List.Sublist (pruneLoop env vd entries fs).fs.rootEntries fs.rootEntries := by
  induction entries generalizing fs with
  | nil => exact List.Sublist.refl _
  | cons e rest ih =>
    unfold pruneLoop
    split
    · exact List.Sublist.refl _
    · split
      · exact ih fs
      · exact (ih _).trans (pruneStep_sublist env.removeOk fs e.name)

theorem pruneLoop_mem_vd (env : ResolveEnv) (vd : String)
    (entries : List RootEntry) (fs : FS) (x : RootEntry)
    (hx : x ∈ fs.rootEntries) (hname : x.name = vd) :
    x ∈ (pruneLoop env vd entries fs).fs.rootEntries := by
  induction entries generalizing fs with
  | nil => exact hx
  | cons e rest ih =>
    unfold pruneLoop
    split
    · exact hx
    · split
      · exact ih fs hx
      · rename_i hne
        exact ih _ (pruneStep_mem_preserved env.removeOk fs e.name x hx
          (by rw [hname]; exact fun hc => hne hc.symm))

theorem pruneLoop_ok_noLoadFails (env : ResolveEnv) (vd : String)
    (entries : List RootEntry) (fs : FS)
    (hload : env.entryLoadFails = []) :
    (pruneLoop env vd entries fs).ok = true := by
  induction entries generalizing fs with
  | nil => rfl
  | cons e rest ih =>
    unfold pruneLoop
    simp only [hload, List.contains_nil, Bool.false_eq_true, if_false]
    split
    · exact ih fs
    · exact ih _

theorem pruneLoop_attempts_noLoadFails (env : ResolveEnv) (vd : String)
    (entries : List RootEntry) (fs : FS)
    (hload : env.entryLoadFails = []) :
    (pruneLoop env vd entries fs).attempts =
      (entries.filter (fun e => e.name != vd)).map RootEntry.name := by
  induction entries generalizing fs with
  | nil => rfl
  | cons e rest ih =>
    unfold pruneLoop
    simp only [hload, List.contains_nil, Bool.false_eq_true, if_false]
    split
    · rename_i hevd
      rw [List.filter_cons_of_neg (by simp [hevd])]
      exact ih fs
    · rename_i hne
      rw [List.filter_cons_of_pos (by simpa using hne), List.map_cons]
      show e.name :: (pruneLoop env vd rest (pruneStep env.removeOk fs e.name)).attempts = _
      rw [ih _]

/-- The main pruning invariant: once the loop has run over a snapshot
that schedules every directory other than the version directory, and
every removal succeeds, every directory entry that survives is the
version directory. -/
theorem pruneLoop_dirs_all_vd (env : ResolveEnv) (vd : String)
    (entries : List RootEntry) (fs : FS)
    (hload : env.entryLoadFails = [])
    (hrem : ∀ n, env.removeOk n = true)
    (hsub : ∀ e ∈ entries, e ∈ fs.rootEntries)
    (hnd : (fs.rootEntries.map RootEntry.name).Nodup)
    (hnde : (entries.map RootEntry.name).Nodup)
    (hcover : ∀ x ∈ fs.rootEntries, x.isDir = true → x.name = vd ∨ x ∈ entries) :
    ∀ x ∈ (pruneLoop env vd entries fs).fs.rootEntries, x.isDir = true →
      x.name = vd := by
  induction entries generalizing fs with
  | nil =>
    intro x hx hdir
    rcases hcover x hx hdir with h | h
    · exact h
    · cases h
  | cons e rest ih =>
    unfold pruneLoop
    simp only [hload, List.contains_nil, Bool.false_eq_true, if_false]
    have hnde' : (rest.map RootEntry.name).Nodup :=
      (List.nodup_cons.mp (by simpa using hnde)).2
    have henotrest : e.name ∉ rest.map RootEntry.name :=
      (List.nodup_cons.mp (by simpa using hnde)).1
    split
    · rename_i hevd
      exact ih fs (fun a ha => hsub a (List.mem_cons_of_mem e ha)) hnd hnde'
        (fun x hx hdir => by
          rcases hcover x hx hdir with h | h
          · exact .inl h
          · rcases List.mem_cons.mp h with rfl | h'
            · exact .inl hevd
            · exact .inr h')
    · rename_i hne
      have hefs : e ∈ fs.rootEntries := hsub e (List.mem_cons_self e rest)
      show ∀ x ∈ (pruneLoop env vd rest
        (pruneStep env.removeOk fs e.name)).fs.rootEntries,
          x.isDir = true → x.name = vd
      by_cases hdir : e.isDir = true
      · have hany : fs.rootEntries.any
            (fun x => x.name == e.name && x.isDir) = true := by
          rw [List.any_eq_true]
          exact ⟨e, hefs, by simp [hdir]⟩
        have hstep : pruneStep env.removeOk fs e.name = fs.removeTree e.name := by
          unfold pruneStep
          rw [hany, hrem e.name]
          simp
        rw [hstep]
        apply ih
        · intro a ha
          have hafs := hsub a (List.mem_cons_of_mem e ha)
          have hane : a.name ≠ e.name := fun hc =>
            henotrest (hc ▸ List.mem_map_of_mem RootEntry.name ha)
          unfold FS.removeTree
          simp only [List.mem_filter]
          exact ⟨hafs, by simpa using hane⟩
        · unfold FS.removeTree
          exact (((List.filter_sublist _).map RootEntry.name)).nodup hnd
        · exact hnde'
        · intro x hx hdir2
          unfold FS.removeTree at hx
          simp only [List.mem_filter] at hx
          obtain ⟨hxfs, hxne⟩ := hx
          rcases hcover x hxfs hdir2 with h | h
          · exact .inl h
          · rcases List.mem_cons.mp h with rfl | h'
            · simp at hxne
            · exact .inr h'
      · have hdirf : e.isDir = false := by simpa using hdir
        have hany : fs.rootEntries.any
            (fun x => x.name == e.name && x.isDir) = false := by
          rw [List.any_eq_false]
          intro x hxfs hcontra
          rw [Bool.and_eq_true] at hcontra
          have hxn : x.name = e.name := by simpa using hcontra.1
          have hxe : x = e := rootEntry_eq_of_name_eq hnd hxfs hefs hxn
          rw [hxe, hdirf] at hcontra
          exact Bool.false_ne_true hcontra.2
        have hstep : pruneStep env.removeOk fs e.name = fs := by
          unfold pruneStep
          rw [hany]
          simp
        rw [hstep]
        apply ih
        · exact fun a ha => hsub a (List.mem_cons_of_mem e ha)
        · exact hnd
        · exact hnde'
        · intro x hx hdir2
          rcases hcover x hx hdir2 with h | h
          · exact .inl h
          · rcases List.mem_cons.mp h with rfl | h'
            · rw [hdir2] at hdirf; cases hdirf
            · exact .inr h'

/-- In a duplicate-free list, a predicate holding exactly at one member
filters down to that singleton. -/
theorem filter_eq_single {α : Type} (l : List α) (p : α → Bool) (x : α)
    (hnd : l.Nodup) (hx : x ∈ l) (hpx : p x = true)
    (huniq : ∀ y ∈ l, p y = true → y = x) : l.filter p = [x] := by
  induction l with
  | nil => cases hx
  | cons a t ih =>
    obtain ⟨hat, hndt⟩ := List.nodup_cons.mp hnd
    rcases List.mem_cons.mp hx with rfl | hxt
    · rw [List.filter_cons_of_pos hpx]
      have : t.filter p = [] := by
        rw [List.filter_eq_nil_iff]
        intro y hy hpy
        have hyx : y = x := huniq y (List.mem_cons_of_mem _ hy) hpy
        rw [hyx] at hy
        exact hat hy
      rw [this]
    · have hpa : ¬ p a = true := by
        intro hpa
        have hax : a = x := huniq a (List.mem_cons_self a t) hpa
        rw [hax] at hat
        exact hat hxt
      rw [List.filter_cons_of_neg hpa]
      exact ih hndt hxt (fun y hy hpy => huniq y (List.mem_cons_of_mem _ hy) hpy)

/-! ## Facts about `createDirAll` entries -/

theorem FS.createDirAll_mem_dir (fs : FS) (n : String)
    (hnofile : fs.hasFileEntryNamed n = false) :
    (⟨n, true⟩ : RootEntry) ∈ (fs.createDirAll n).rootEntries := by
  unfold FS.createDirAll
  split
  · rename_i hhas
    unfold FS.hasEntryNamed at hhas
    rw [List.any_eq_true] at hhas
    obtain ⟨x, hxmem, hxn⟩ := hhas
    have hxname : x.name = n := by simpa using hxn
    have hxdir : x.isDir = true := by
      by_contra hxd
      have hxd' : x.isDir = false := by simpa using hxd
      unfold FS.hasFileEntryNamed at hnofile
      rw [List.any_eq_false] at hnofile
      exact hnofile x hxmem (by simp [hxname, hxd'])
    have hxe : x = ⟨n, true⟩ := by
      cases x
      simp_all
    rwa [hxe] at hxmem
  · exact List.mem_append_right _ (List.mem_singleton.mpr rfl)

theorem FS.createDirAll_mem_of_mem (fs : FS) (n : String) (x : RootEntry)
    (hx : x ∈ fs.rootEntries) : x ∈ (fs.createDirAll n).rootEntries := by
  unfold FS.createDirAll
  split
  · exact hx
  · exact List.mem_append_left _ hx

theorem FS.createDirAll_names_nodup (fs : FS) (n : String)
    (hnd : (fs.rootEntries.map RootEntry.name).Nodup) :
    ((fs.createDirAll n).rootEntries.map RootEntry.name).Nodup := by
  unfold FS.createDirAll
  split
  · exact hnd
  · rename_i hhas
    have hhas' : fs.hasEntryNamed n = false := by simpa using hhas
    unfold FS.hasEntryNamed at hhas'
    rw [List.any_eq_false] at hhas'
    rw [List.map_append, List.nodup_append]
    refine ⟨hnd, List.nodup_singleton _, ?_⟩
    intro a ha hb
    simp only [List.map_cons, List.map_nil, List.mem_singleton] at hb
    subst hb
    rw [List.mem_map] at ha
    obtain ⟨x, hxmem, hxname⟩ := ha
    exact hhas' x hxmem (by simp [hxname])

/-! ## The fresh-download branch, computed -/

/-- When the memoized fast path misses, the call is exactly the full
resolution. -/
theorem csbp_miss (env : ResolveEnv) (cached0 : Option FsPath) (fs : FS)
    (hmiss : ∀ q, cached0 = some q → fs.isFile q = false) :
    context_server_binary_path env cached0 fs = resolveFull env cached0 fs := by
  unfold context_server_binary_path
  cases cached0 with
  | none => rfl
  | some q => simp [hmiss q rfl]

/-- Computation of the full resolution on the fresh-download branch:
feed up, asset found, directory created, binary not yet on disk,
download and chmod succeed, enumeration starts.  The result is the
pruning finish applied to the loop over the post-download filesystem. -/
theorem resolveFull_fresh (env : ResolveEnv) (cached0 : Option FsPath)
    (fs : FS) (release : GithubRelease) (asset : GithubReleaseAsset)
    (extracted : List FsPath)
    (hrel : env.release = .ok release)
    (hasset : findAsset release (assetNameFor env.os env.arch) = some asset)
    (hcd : env.createDirOk = true)
    (hnofile : fs.hasFileEntryNamed (versionDir release) = false)
    (hfresh : fs.isFile (binaryPathOf release) = false)
    (hdl : env.downloadResult = .ok extracted)
    (hbin : binaryPathOf release ∈ fs.files ++ extracted)
    (hchmod : env.chmodOk = true)
    (hrd : env.readDirOk = true) :
    resolveFull env cached0 fs =
      pruneFinish release cached0
        (pruneLoop env (versionDir release)
          (fs.createDirAll (versionDir release)).rootEntries
          ⟨(fs.createDirAll (versionDir release)).rootEntries,
            fs.files ++ extracted, binaryPathOf release :: fs.execs⟩) := by
  have hfresh1 : (fs.createDirAll (versionDir release)).isFile
      (binaryPathOf release) = false := by
    unfold FS.isFile
    rw [FS.createDirAll_files]
    exact hfresh
  have hbin2 : (FS.mk (fs.createDirAll (versionDir release)).rootEntries
      (fs.files ++ extracted) fs.execs).isFile
      (binaryPathOf release) = true := by
    rw [FS.isFile_iff]
    exact hbin
  unfold resolveFull downloadStage chmodStage pruneStage
  simp only [hrel, hasset, hcd, hnofile, hfresh1, hdl, hbin2, hchmod, hrd,
    Bool.not_false, Bool.and_true, Bool.true_and, if_true,
    Bool.false_eq_true, if_false, FS.createDirAll_files, FS.createDirAll_execs]

theorem pruneFinish_ok (release : GithubRelease) (cached0 : Option FsPath)
    (r : PruneResult) (h : r.ok = true) :
    pruneFinish release cached0 r =
      ⟨.ok (binaryPathOf release), some (binaryPathOf release), r.fs,
        [.fetchRelease, .download, .chmod] ++ r.attempts.map Event.removeAttempt,
        r.attempts⟩ := by
  simp [pruneFinish, h]

/-- After pruning a snapshot of the whole cache root with every removal
succeeding, the only surviving directory entry is the version directory. -/
theorem pruned_result_spec (env : ResolveEnv) (vd : String) (fs3 : FS)
    (hload : env.entryLoadFails = [])
    (hrem : ∀ n, env.removeOk n = true)
    (hnd3 : (fs3.rootEntries.map RootEntry.name).Nodup)
    (hmem : (⟨vd, true⟩ : RootEntry) ∈ fs3.rootEntries) :
    (pruneLoop env vd fs3.rootEntries fs3).fs.rootEntries.filter
      (fun e => e.isDir) = [⟨vd, true⟩] := by
  have hall := pruneLoop_dirs_all_vd env vd fs3.rootEntries fs3 hload hrem
    (fun e he => he) hnd3 hnd3 (fun x hx _ => .inr hx)
  have hsub := pruneLoop_sublist env vd fs3.rootEntries fs3
  have hndR : (pruneLoop env vd fs3.rootEntries fs3).fs.rootEntries.Nodup :=
    List.Nodup.of_map _ ((hsub.map RootEntry.name).nodup hnd3)
  have hmemR := pruneLoop_mem_vd env vd fs3.rootEntries fs3 ⟨vd, true⟩ hmem rfl
  apply filter_eq_single _ _ _ hndR hmemR rfl
  intro y hy hpy
  have hname := hall y hy hpy
  cases y with
  | mk yn yd =>
    dsimp only at hname hpy
    rw [hname, hpy]

/-! ## C1: at most one version directory after a successful resolve -/

/-- A release feed answer for version 2.0.0 with the exact
Linux/x86_64 asset. -/
def releaseV2 : GithubRelease :=
  ⟨"2.0.0", [⟨"github-mcp-server_Linux_x86_64.tar.gz",
    "https://example.invalid/v2.tar.gz"⟩]⟩

/-- Environment serving `releaseV2`, with every host call succeeding and
the downloaded archive containing the version-2 binary (used on the
warm-disk path, where the download never happens). -/
def envWarmV2 : ResolveEnv :=
  { os := .linux, arch := .x8664, release := .ok releaseV2,
    createDirOk := true, downloadResult := .ok [], chmodOk := true,
    readDirOk := true, entryLoadFails := [], removeOk := fun _ => true }

/-- Cache root holding both a stale version-1 directory and the
version-2 directory with its binary already on disk. -/
def fsStaleV1V2 : FS :=
  { rootEntries := [⟨"github-mcp-server-1.0.0", true⟩,
      ⟨"github-mcp-server-2.0.0", true⟩],
    files := [["github-mcp-server-1.0.0", "github-mcp-server"],
      ["github-mcp-server-2.0.0", "github-mcp-server"]],
    execs := [["github-mcp-server-2.0.0", "github-mcp-server"]] }

/-- A cache-root entry that is a version directory: a directory whose
name starts with `{BINARY_NAME}-`. -/
def isVersionDirEntry (e : RootEntry) : Bool :=
  e.isDir && (BINARY_NAME ++ "-").data.isPrefixOf e.name.data

/-- Claim C1, counterexample: A successful resolution to version 2.0.0
with a stale 1.0.0 directory present can leave two version directories:
when the version-2 binary is already on disk, the pruning block is
skipped entirely (it lives inside the fresh-download branch), so the
stale directory survives and no deletion is even attempted. -/
theorem c1_counterexample :
    (context_server_binary_path envWarmV2 none fsStaleV1V2).result =
      .ok ["github-mcp-server-2.0.0", "github-mcp-server"] ∧
    ((context_server_binary_path envWarmV2 none fsStaleV1V2).fs.rootEntries.filter
      isVersionDirEntry).length = 2 ∧
    (⟨"github-mcp-server-1.0.0", true⟩ : RootEntry) ∈
      (context_server_binary_path envWarmV2 none fsStaleV1V2).fs.rootEntries ∧
    (context_server_binary_path envWarmV2 none fsStaleV1V2).deletionAttempts =
      [] :=
  ⟨rfl, rfl, by decide, rfl⟩

/-- Claim C1, amended: For every successful resolution that takes the
fresh-download branch (the expected binary was not already on disk) and
in which every `remove_dir_all` on another entry succeeds: afterwards
the cache root contains exactly one version directory — indeed exactly
one directory of any kind — named `{binary_name}-V2`, the binary inside
it is a regular executable file at `{binary_name}-V2/{binary_name}`,
and stale entries are deleted only after the new binary is confirmed
present (every removal event follows the fetch, download and chmod
events).  On the warm-disk path, by contrast, pruning is skipped and a
stale version directory survives — see the counterexample. -/
theorem c1_amended_single_version_dir (env : ResolveEnv)
    (cached0 : Option FsPath) (fs : FS) (release : GithubRelease)
    (asset : GithubReleaseAsset) (extracted : List FsPath)
    (hmiss : ∀ q, cached0 = some q → fs.isFile q = false)
    (hrel : env.release = .ok release)
    (hasset : findAsset release (assetNameFor env.os env.arch) = some asset)
    (hcd : env.createDirOk = true)
    (hnofile : fs.hasFileEntryNamed (versionDir release) = false)
    (hfresh : fs.isFile (binaryPathOf release) = false)
    (hdl : env.downloadResult = .ok extracted)
    (hbin : binaryPathOf release ∈ fs.files ++ extracted)
    (hchmod : env.chmodOk = true)
    (hrd : env.readDirOk = true)
    (hload : env.entryLoadFails = [])
    (hrem : ∀ n, env.removeOk n = true)
    (hnd : (fs.rootEntries.map RootEntry.name).Nodup) :
    (context_server_binary_path env cached0 fs).result =
      .ok (binaryPathOf release) ∧
    (context_server_binary_path env cached0 fs).fs.rootEntries.filter
      (fun e => e.isDir) = [⟨versionDir release, true⟩] ∧
    (context_server_binary_path env cached0 fs).fs.isFile
      (binaryPathOf release) = true ∧
    binaryPathOf release ∈ (context_server_binary_path env cached0 fs).fs.execs ∧
    (context_server_binary_path env cached0 fs).events =
      [.fetchRelease, .download, .chmod] ++
        (context_server_binary_path env cached0 fs).deletionAttempts.map
          Event.removeAttempt := by
  rw [csbp_miss _ _ _ hmiss,
    resolveFull_fresh _ _ _ _ _ _ hrel hasset hcd hnofile hfresh hdl hbin
      hchmod hrd,
    pruneFinish_ok _ _ _ (pruneLoop_ok_noLoadFails _ _ _ _ hload)]
  refine ⟨rfl, ?_, ?_, ?_, rfl⟩
  · exact pruned_result_spec env (versionDir release)
      ⟨(fs.createDirAll (versionDir release)).rootEntries,
        fs.files ++ extracted, binaryPathOf release :: fs.execs⟩ hload hrem
      (FS.createDirAll_names_nodup fs _ hnd)
      (FS.createDirAll_mem_dir fs _ hnofile)
  · rw [FS.isFile_iff]
    exact pruneLoop_files_mem env (versionDir release) _ _ _ rfl hbin
  · exact pruneLoop_execs_mem env (versionDir release) _ _ _ rfl
      (List.mem_cons_self _ _)

/-- Environment serving `releaseV2` where the download really produces
the version-2 binary. -/
def envFreshV2 : ResolveEnv :=
  { os := .linux, arch := .x8664, release := .ok releaseV2,
    createDirOk := true,
    downloadResult := .ok [["github-mcp-server-2.0.0", "github-mcp-server"]],
    chmodOk := true, readDirOk := true, entryLoadFails := [],
    removeOk := fun _ => true }

/-- Cache root holding only a stale version-1 directory. -/
def fsStaleOnly : FS :=
  { rootEntries := [⟨"github-mcp-server-1.0.0", true⟩],
    files := [["github-mcp-server-1.0.0", "github-mcp-server"]],
    execs := [["github-mcp-server-1.0.0", "github-mcp-server"]] }

/-- Witness for `c1_amended_single_version_dir`: fresh download of
version 2.0.0 over a stale 1.0.0 directory leaves exactly the 2.0.0
directory. -/
theorem c1_amended_single_version_dir_witness :
    (context_server_binary_path envFreshV2 none fsStaleOnly).result =
      .ok ["github-mcp-server-2.0.0", "github-mcp-server"] ∧
    (context_server_binary_path envFreshV2 none fsStaleOnly).fs.rootEntries.filter
      (fun e => e.isDir) = [⟨"github-mcp-server-2.0.0", true⟩] := by
  have h := c1_amended_single_version_dir envFreshV2 none fsStaleOnly releaseV2
    ⟨"github-mcp-server_Linux_x86_64.tar.gz", "https://example.invalid/v2.tar.gz"⟩
    [["github-mcp-server-2.0.0", "github-mcp-server"]]
    (fun q hq => by cases hq) rfl rfl rfl rfl rfl rfl (by decide) rfl rfl rfl
    (fun n => rfl) (by decide)
  exact ⟨h.1, h.2.1⟩

/-! ## C3: which pruning failures are swallowed -/

/-- A release feed answer for version 3.0.0 with the exact Linux/x86_64 asset. -/
def releaseV3 : GithubRelease :=
  ⟨"3.0.0", [⟨"github-mcp-server_Linux_x86_64.tar.gz",
    "https://example.invalid/v3.tar.gz"⟩]⟩

/-- Environment where everything succeeds up to and including chmod,
but listing the working directory (`fs::read_dir(".")`) fails. -/
def envReadDirFail : ResolveEnv :=
  { os := .linux, arch := .x8664, release := .ok releaseV3,
    createDirOk := true,
    downloadResult := .ok [["github-mcp-server-3.0.0", "github-mcp-server"]],
    chmodOk := true, readDirOk := false, entryLoadFails := [],
    removeOk := fun _ => true }

/-- Claim C3, counterexample: An enumeration failure during pruning is NOT
swallowed: with the new binary already downloaded, decompressed and made
executable, a failing `read_dir` makes the whole resolution return an
error instead of the new binary path, because the `?` operator on
`read_dir` (and on each directory entry) propagates the failure. -/
theorem c3_counterexample :
    (context_server_binary_path envReadDirFail none fsStaleOnly).result =
      .error "failed to list working directory" ∧
    (context_server_binary_path envReadDirFail none fsStaleOnly).fs.isFile
      ["github-mcp-server-3.0.0", "github-mcp-server"] = true ∧
    ["github-mcp-server-3.0.0", "github-mcp-server"] ∈
      (context_server_binary_path envReadDirFail none fsStaleOnly).fs.execs :=
  ⟨rfl, rfl, by decide⟩

/-- Claim C3, amended: Only the `remove_dir_all` deletions themselves are
best-effort: once the new binary is downloaded, decompressed and made
executable and the directory enumeration succeeds (read_dir works and
every entry loads), the resolution returns the new binary path
successfully no matter which deletions fail, so a stale leftover entry
never causes the resolution to error.  Failures of the enumeration
itself (read_dir or a directory-entry load), however, abort the
resolution — see the counterexample. -/
theorem c3_amended_deletions_swallowed (env : ResolveEnv)
    (cached0 : Option FsPath) (fs : FS) (release : GithubRelease)
    (asset : GithubReleaseAsset) (extracted : List FsPath)
    (hmiss : ∀ q, cached0 = some q → fs.isFile q = false)
    (hrel : env.release = .ok release)
    (hasset : findAsset release (assetNameFor env.os env.arch) = some asset)
    (hcd : env.createDirOk = true)
    (hnofile : fs.hasFileEntryNamed (versionDir release) = false)
    (hfresh : fs.isFile (binaryPathOf release) = false)
    (hdl : env.downloadResult = .ok extracted)
    (hbin : binaryPathOf release ∈ fs.files ++ extracted)
    (hchmod : env.chmodOk = true)
    (hrd : env.readDirOk = true)
    (hload : env.entryLoadFails = []) :
    (context_server_binary_path env cached0 fs).result =
      .ok (binaryPathOf release) := by
  rw [csbp_miss _ _ _ hmiss,
    resolveFull_fresh _ _ _ _ _ _ hrel hasset hcd hnofile hfresh hdl hbin
      hchmod hrd,
    pruneFinish_ok _ _ _ (pruneLoop_ok_noLoadFails _ _ _ _ hload)]

/-- Environment like `envFreshV2` but where every `remove_dir_all`
fails. -/
def envFreshV2RemoveFail : ResolveEnv :=
  { os := .linux, arch := .x8664, release := .ok releaseV2,
    createDirOk := true,
    downloadResult := .ok [["github-mcp-server-2.0.0", "github-mcp-server"]],
    chmodOk := true, readDirOk := true, entryLoadFails := [],
    removeOk := fun _ => false }

/-- Witness for `c3_amended_deletions_swallowed`: with every deletion
failing and a stale directory present, the resolution still succeeds
(and the stale directory survives). -/
theorem c3_amended_deletions_swallowed_witness :
    (context_server_binary_path envFreshV2RemoveFail none fsStaleOnly).result =
      .ok ["github-mcp-server-2.0.0", "github-mcp-server"] ∧
    (⟨"github-mcp-server-1.0.0", true⟩ : RootEntry) ∈
      (context_server_binary_path envFreshV2RemoveFail none fsStaleOnly).fs.rootEntries :=
  ⟨c3_amended_deletions_swallowed envFreshV2RemoveFail none fsStaleOnly
      releaseV2
      ⟨"github-mcp-server_Linux_x86_64.tar.gz", "https://example.invalid/v2.tar.gz"⟩
      [["github-mcp-server-2.0.0", "github-mcp-server"]]
      (fun q hq => by cases hq) rfl rfl rfl rfl rfl rfl (by decide) rfl rfl rfl,
   by decide⟩

/-! ## C10: pruning attempts deletion of every other entry -/

/-- Claim C10: On the fresh-download branch, the pruning step attempts
`remove_dir_all` on every cache-root entry whose name differs from the
new version directory's name — including entries that are not version
directories at all, such as the `wrappers` directory — and the new
version directory itself survives. -/
theorem c10_prune_attempts_every_other_entry (env : ResolveEnv)
    (cached0 : Option FsPath) (fs : FS) (release : GithubRelease)
    (asset : GithubReleaseAsset) (extracted : List FsPath)
    (hmiss : ∀ q, cached0 = some q → fs.isFile q = false)
    (hrel : env.release = .ok release)
    (hasset : findAsset release (assetNameFor env.os env.arch) = some asset)
    (hcd : env.createDirOk = true)
    (hnofile : fs.hasFileEntryNamed (versionDir release) = false)
    (hfresh : fs.isFile (binaryPathOf release) = false)
    (hdl : env.downloadResult = .ok extracted)
    (hbin : binaryPathOf release ∈ fs.files ++ extracted)
    (hchmod : env.chmodOk = true)
    (hrd : env.readDirOk = true)
    (hload : env.entryLoadFails = []) :
    (∀ e ∈ fs.rootEntries, e.name ≠ versionDir release →
      e.name ∈ (context_server_binary_path env cached0 fs).deletionAttempts) ∧
    (⟨versionDir release, true⟩ : RootEntry) ∈
      (context_server_binary_path env cached0 fs).fs.rootEntries := by
  rw [csbp_miss _ _ _ hmiss,
    resolveFull_fresh _ _ _ _ _ _ hrel hasset hcd hnofile hfresh hdl hbin
      hchmod hrd,
    pruneFinish_ok _ _ _ (pruneLoop_ok_noLoadFails _ _ _ _ hload)]
  constructor
  · intro e he hne
    rw [pruneLoop_attempts_noLoadFails _ _ _ _ hload, List.mem_map]
    refine ⟨e, ?_, rfl⟩
    rw [List.mem_filter]
    exact ⟨FS.createDirAll_mem_of_mem fs _ e he, by simpa using hne⟩
  · exact pruneLoop_mem_vd _ _ _ _ _
      (FS.createDirAll_mem_dir fs _ hnofile) rfl

/-- A cache root holding the `wrappers` directory with a user-supplied
wrapper script, plus a stale version directory. -/
def fsWithWrappers : FS :=
  { rootEntries := [⟨"wrappers", true⟩, ⟨"github-mcp-server-1.0.0", true⟩],
    files := [["wrappers", "github-mcp-wrapper.sh"],
      ["github-mcp-server-1.0.0", "github-mcp-server"]],
    execs := [] }

/-- Witness for `c10_prune_attempts_every_other_entry`: the user's
`wrappers` directory is among the deletion attempts of a fresh
resolution. -/
theorem c10_prune_attempts_every_other_entry_witness :
    "wrappers" ∈
      (context_server_binary_path envFreshV2 none fsWithWrappers).deletionAttempts ∧
    (⟨"github-mcp-server-2.0.0", true⟩ : RootEntry) ∈
      (context_server_binary_path envFreshV2 none fsWithWrappers).fs.rootEntries := by
  have h := c10_prune_attempts_every_other_entry envFreshV2 none fsWithWrappers
    releaseV2
    ⟨"github-mcp-server_Linux_x86_64.tar.gz", "https://example.invalid/v2.tar.gz"⟩
    [["github-mcp-server-2.0.0", "github-mcp-server"]]
    (fun q hq => by cases hq) rfl rfl rfl rfl rfl rfl (by decide) rfl rfl rfl
  exact ⟨h.1 ⟨"wrappers", true⟩ (by decide) (by decide), h.2⟩

end McpServerGithub
